import Mathlib

/-!
Verification of the bidirectional wiki-link engine of the knowledge-app
repository (src/lib/linking/parser.ts, src/lib/db/operations.ts,
src/lib/db/schema.ts).

The store (IndexedDB via Dexie) is modelled as two lists of rows keyed by
string ids, plus a counter used to generate fresh row ids (modelling uuidv4).
Table enumeration order is modelled as list order; every property proved or
refuted below depends only on row membership and counts, never on the
enumeration order.  The ambient clock Date.now() is passed in as an explicit
natural-number argument.  All definitions are structurally recursive and
executable, so concrete states evaluate inside the kernel.
-/

namespace KnowledgeApp

/-- Row of the notes table (schema.ts, interface Note). -/
structure Note where
  id : String
  title : String
  content : String
  contentText : String
  tags : List String
  createdAt : Nat
  updatedAt : Nat
  linkedNoteIds : List String
  backlinkNoteIds : List String
deriving Repr, DecidableEq

/-- Row of the links table (schema.ts, interface Link). -/
structure Link where
  id : String
  sourceNoteId : String
  targetNoteId : String
  targetTitle : String
  createdAt : Nat
  resolved : Bool
deriving Repr, DecidableEq

/-- The database: notes table, links table, and a fresh-id counter modelling
uuidv4 (each generated id is distinct from all previously generated ones). -/
structure Store where
  notes : List Note
  links : List Link
  nextId : Nat
deriving Repr, DecidableEq

/-- Empty string constant. -/
def emptyS : String := ""

/-- Default title constant of schema.ts. -/
def untitled : String := "Untitled Note"

/-- Newline separator constant. -/
def newlineS : String := "\n"

/-- Ellipsis suffix appended to truncated titles. -/
def ellipsis : String := "..."

/-- Fresh row id produced by the uuid generator. -/
def freshId (n : Nat) : String := "uuid-" ++ toString n

/-- JavaScript String.prototype.trim on the character-list view: drop
whitespace from both ends. -/
def trimChars (cs : List Char) : List Char :=
  ((cs.dropWhile Char.isWhitespace).reverse.dropWhile Char.isWhitespace).reverse

/-- Scanner for the global regex match of parser.ts line 20 (two opening
brackets, one or more characters none of which is a closing bracket, two
closing brackets).  It mirrors JavaScript matchAll semantics: try to match at
the current position; on success continue right after the match, on failure
advance one character.  The fuel argument (instantiated with the input length,
which bounds the number of scanning steps) makes the recursion structural. -/
def scanGo : Nat → List Char → List (List Char)
  | 0, _ => []
  | _ + 1, [] => []
  | fuel + 1, c :: rest =>
    if c = '[' then
      match rest with
      | [] => []
      | c2 :: rest2 =>
        if c2 = '[' then
          let raw := rest2.takeWhile (fun d => d ≠ ']')
          match rest2.dropWhile (fun d => d ≠ ']') with
          | d1 :: d2 :: rest3 =>
            if d1 = ']' ∧ d2 = ']' ∧ raw ≠ [] then raw :: scanGo fuel rest3
            else scanGo fuel rest
          | _ => scanGo fuel rest
        else scanGo fuel rest
    else scanGo fuel rest

/-- All raw captures of the wiki-link regex over a text, in match order. -/
def scanWikiLinks (cs : List Char) : List (List Char) := scanGo cs.length cs

/-- Deduplication keeping first occurrences, with an accumulator of already
seen elements; this is the behaviour of a JavaScript Set built by insertion. -/
def dedupAux (seen : List String) : List String → List String
  | [] => []
  | x :: xs => if x ∈ seen then dedupAux seen xs else x :: dedupAux (x :: seen) xs

/-- Array.from of a Set built from a list: first-occurrence deduplication. -/
def dedupFirst (l : List String) : List String := dedupAux [] l

/-- parseWikiLinks of parser.ts: collect all regex captures, trim each, and
deduplicate keeping the order of first occurrence. -/
def parseWikiLinks (content : String) : List String :=
  dedupFirst ((scanWikiLinks content.data).map (fun cs => String.mk (trimChars cs)))

/-- Primary-key lookup db.notes.get(id). -/
def findNote (ns : List Note) (i : String) : Option Note :=
  ns.find? (fun n => n.id = i)

/-- Primary-key lookup on a store. -/
def dbGetNote (s : Store) (i : String) : Option Note := findNote s.notes i

/-- db.notes.update(id, changes): rewrite the row whose primary key is the
given id by the given field change.  Since ids are primary keys, rewriting
every row carrying the id coincides with rewriting the single such row. -/
def setNote (i : String) (f : Note → Note) (ns : List Note) : List Note :=
  ns.map (fun n => if n.id = i then f n else n)

/-- Insertion into a JavaScript Set built from a list, read back with
Array.from: dedupe keeping first occurrences, then append if absent. -/
def setAdd (l : List String) (x : String) : List String :=
  let d := dedupFirst l
  if x ∈ d then d else d ++ [x]

/-- db.links.add of a fresh row, consuming one fresh id. -/
def addLink (src tgt title : String) (res : Bool) (now : Nat) (s : Store) : Store :=
  { s with
    links := s.links ++ [{ id := freshId s.nextId, sourceNoteId := src,
                           targetNoteId := tgt, targetTitle := title,
                           createdAt := now, resolved := res }],
    nextId := s.nextId + 1 }

/-- extractPlainText of schema.ts: content is plain text, trimmed. -/
def extractPlainText (content : String) : String := content.trim

/-- generateTitleFromContent of schema.ts: first line, trimmed, truncated to
100 characters with an ellipsis, or the default title. -/
def generateTitleFromContent (content : String) : String :=
  if content.trim = emptyS then untitled
  else
    let firstLine := ((content.splitOn newlineS).headD emptyS).trim
    if firstLine.length > 0 then
      if firstLine.length > 100 then firstLine.take 100 ++ ellipsis else firstLine
    else untitled

/-- Ids of all notes whose title occurs among the titles parsed from the given
content (parser.ts lines 57-62: filter by title, then map to ids). -/
def newLinkedIds (content : String) (ns : List Note) : List String :=
  (ns.filter (fun n => n.title ∈ parseWikiLinks content)).map Note.id

/-- Parsed titles matched by no existing note: the placeholders a
content-commit will ensure exist (parser.ts lines 126-128). -/
def unresolvedTitlesOf (content : String) (ns : List Note) : List String :=
  (parseWikiLinks content).filter
    (fun t => ¬ (ns.filter (fun n => n.title ∈ parseWikiLinks content)).any (fun n => n.title = t))

/-- Field change adding the source to a target's backlink set
(parser.ts lines 86-91). -/
def pushBacklink (noteId : String) (n : Note) : Note :=
  { n with backlinkNoteIds := setAdd n.backlinkNoteIds noteId }

/-- Field change deleting the source from a target's backlink set
(parser.ts lines 109-114). -/
def pullBacklink (noteId : String) (n : Note) : Note :=
  { n with backlinkNoteIds := (dedupFirst n.backlinkNoteIds).filter (fun b => b ≠ noteId) }

/-- Field change pointing a note's outgoing set at the given ids
(parser.ts lines 66-68). -/
def setLinked (ids : List String) (n : Note) : Note :=
  { n with linkedNoteIds := ids }

/-- One iteration of the added-backlinks loop (parser.ts lines 83-103): fetch
the target, add the source to the target's backlink set, and insert a resolved
Link row denormalising the target's current title. -/
def addBacklinkStep (noteId : String) (now : Nat) (s : Store) (linkedNoteId : String) : Store :=
  match dbGetNote s linkedNoteId with
  | none => s
  | some linkedNote =>
    let s1 : Store := { s with notes := setNote linkedNoteId (pushBacklink noteId) s.notes }
    addLink noteId linkedNoteId linkedNote.title true now s1

/-- One iteration of the removed-backlinks loop (parser.ts lines 106-123):
fetch the target, delete the source from its backlink set, and delete the
Link rows from the source to this target.  Nothing happens when the target
row no longer exists. -/
def removeBacklinkStep (noteId : String) (s : Store) (unlinkedNoteId : String) : Store :=
  match dbGetNote s unlinkedNoteId with
  | none => s
  | some _ =>
    let s1 : Store := { s with notes := setNote unlinkedNoteId (pullBacklink noteId) s.notes }
    { s1 with links := s1.links.filter (fun l => ¬ (l.sourceNoteId = noteId ∧ l.targetNoteId = unlinkedNoteId)) }

/-- Existence check for an unresolved Link row of a source for a title
(parser.ts lines 132-136). -/
def hasUnresolvedRow (s : Store) (noteId title : String) : Bool :=
  s.links.any (fun l => l.sourceNoteId = noteId ∧ l.targetTitle = title ∧ l.resolved = false)

/-- One iteration of the unresolved-links loop (parser.ts lines 130-148): add
an unresolved placeholder row unless one already exists for this source and
title. -/
def addUnresolvedStep (noteId : String) (now : Nat) (s : Store) (title : String) : Store :=
  if hasUnresolvedRow s noteId title then s
  else addLink noteId emptyS title false now s

/-- updateNoteLinks of parser.ts (the content-commit operation): parse the
references, point the source's outgoing set at every note whose title matched,
add backlinks and resolved Link rows for newly linked targets, remove
backlinks and Link rows for no-longer-linked targets, and insert unresolved
placeholder rows for titles matching no note. -/
def updateNoteLinks (noteId content : String) (now : Nat) (s : Store) : Store :=
  match dbGetNote s noteId with
  | none => s
  | some currentNote =>
    let newLinkedNoteIds := newLinkedIds content s.notes
    let oldLinkedNoteIds := currentNote.linkedNoteIds
    let s1 : Store := { s with notes := setNote noteId (setLinked newLinkedNoteIds) s.notes }
    let addedLinks := newLinkedNoteIds.filter (fun i => i ∉ oldLinkedNoteIds)
    let removedLinks := oldLinkedNoteIds.filter (fun i => i ∉ newLinkedNoteIds)
    let s2 := addedLinks.foldl (addBacklinkStep noteId now) s1
    let s3 := removedLinks.foldl (removeBacklinkStep noteId) s2
    (unresolvedTitlesOf content s.notes).foldl (addUnresolvedStep noteId now) s3

/-- Fold threading a store through per-item steps while summing the number of
store write operations each step issues (used to count the writes a
content-commit performs). -/
def foldSW (step : Store → String → Store) (cost : Store → String → Nat)
    (p : Store × Nat) (xs : List String) : Store × Nat :=
  xs.foldl (fun q x => (step q.1 x, q.2 + cost q.1 x)) p

/-- Number of store writes issued by one backlink loop iteration: a note
update plus one links-table operation when the target row exists, none
otherwise. -/
def backlinkTouchCost (s : Store) (i : String) : Nat :=
  if (dbGetNote s i).isSome then 2 else 0

/-- Number of store writes issued by one unresolved-links loop iteration: one
links.add unless the placeholder row already exists. -/
def unresolvedCost (noteId : String) (s : Store) (title : String) : Nat :=
  if hasUnresolvedRow s noteId title then 0 else 1

/-- Number of store write operations issued by updateNoteLinks: none when the
source note is absent; otherwise the unconditional write of the source's
linkedNoteIds (parser.ts lines 66-68) plus the writes of the three loops. -/
def updateNoteLinksWrites (noteId content : String) (now : Nat) (s : Store) : Nat :=
  match dbGetNote s noteId with
  | none => 0
  | some currentNote =>
    let newLinkedNoteIds := newLinkedIds content s.notes
    let oldLinkedNoteIds := currentNote.linkedNoteIds
    let s1 : Store := { s with notes := setNote noteId (setLinked newLinkedNoteIds) s.notes }
    let addedLinks := newLinkedNoteIds.filter (fun i => i ∉ oldLinkedNoteIds)
    let removedLinks := oldLinkedNoteIds.filter (fun i => i ∉ newLinkedNoteIds)
    let p2 := foldSW (addBacklinkStep noteId now) backlinkTouchCost (s1, 1) addedLinks
    let p3 := foldSW (removeBacklinkStep noteId) backlinkTouchCost p2 removedLinks
    (foldSW (addUnresolvedStep noteId now) (unresolvedCost noteId) p3
      (unresolvedTitlesOf content s.notes)).2

/-- New reference set a content-commit would leave behind minus the previous
outgoing set: the edges-to-add part of the edit script. -/
def addedLinksOf (noteId content : String) (s : Store) : List String :=
  match dbGetNote s noteId with
  | none => []
  | some currentNote =>
    (newLinkedIds content s.notes).filter (fun i => i ∉ currentNote.linkedNoteIds)

/-- Previous outgoing set minus the new reference set: the edges-to-remove
part of the edit script. -/
def removedLinksOf (noteId content : String) (s : Store) : List String :=
  match dbGetNote s noteId with
  | none => []
  | some currentNote =>
    currentNote.linkedNoteIds.filter (fun i => i ∉ newLinkedIds content s.notes)

/-- Optional creation payload of createNote (operations.ts line 20): the
fields of the data argument that may be supplied by a caller. -/
structure NoteData where
  title : Option String := none
  content : Option String := none
  tags : Option (List String) := none
  linkedNoteIds : Option (List String) := none
  backlinkNoteIds : Option (List String) := none
deriving Repr, DecidableEq

/-- createNote of operations.ts: build the row from defaults overridden by the
payload, auto-generate the title when none was supplied (JavaScript falsiness:
absent or empty) and the content is non-empty, extract the plain text, and add
the row.  No Link row is read or written. -/
def createNote (data : NoteData) (now : Nat) (s : Store) : Store × Note :=
  let content := data.content.getD emptyS
  let baseTitle := data.title.getD untitled
  let title :=
    if (data.title = none ∨ data.title = some emptyS) ∧ content ≠ emptyS then
      generateTitleFromContent content
    else baseTitle
  let note : Note :=
    { id := freshId s.nextId, title := title, content := content,
      contentText := extractPlainText content, tags := data.tags.getD [],
      createdAt := now, updatedAt := now,
      linkedNoteIds := data.linkedNoteIds.getD [],
      backlinkNoteIds := data.backlinkNoteIds.getD [] }
  ({ s with notes := s.notes ++ [note], nextId := s.nextId + 1 }, note)

/-- Update payload of updateNote (operations.ts line 67), restricted to the
fields the update logic inspects: title and content. -/
structure NoteUpdates where
  title : Option String := none
  content : Option String := none
deriving Repr, DecidableEq

/-- updateNote of operations.ts: write the supplied fields and a fresh
updatedAt onto the row; when content changes, refresh contentText and
re-derive the title if none was supplied and the existing title is still a
default or derived one.  The links table is never touched. -/
def updateNote (i : String) (u : NoteUpdates) (now : Nat) (s : Store) : Store :=
  let autoTitle : Option String :=
    match u.content with
    | none => none
    | some c =>
      if u.title = none ∨ u.title = some emptyS then
        match dbGetNote s i with
        | some ex =>
          if ex.title = untitled ∨ ex.title.endsWith ellipsis
          then some (generateTitleFromContent c) else none
        | none => none
      else none
  let applyU : Note → Note := fun n =>
    let n1 := match u.title with | some t => { n with title := t } | none => n
    let n2 := match u.content with
      | some c => { n1 with content := c, contentText := extractPlainText c }
      | none => n1
    let n3 := match autoTitle with | some t => { n2 with title := t } | none => n2
    { n3 with updatedAt := now }
  { s with notes := setNote i applyU s.notes }

/-- Field change deleting the dying note from a neighbor's backlink set
(operations.ts lines 109-114: plain array filter). -/
def dropBacklink (i : String) (n : Note) : Note :=
  { n with backlinkNoteIds := n.backlinkNoteIds.filter (fun b => b ≠ i) }

/-- Field change deleting the dying note from a neighbor's outgoing set
(operations.ts lines 122-127: plain array filter). -/
def dropLinked (i : String) (n : Note) : Note :=
  { n with linkedNoteIds := n.linkedNoteIds.filter (fun x => x ≠ i) }

/-- One iteration of the first delete loop (operations.ts lines 106-116). -/
def removeFromBacklinksStep (i : String) (s : Store) (linkedNoteId : String) : Store :=
  match dbGetNote s linkedNoteId with
  | none => s
  | some _ => { s with notes := setNote linkedNoteId (dropBacklink i) s.notes }

/-- One iteration of the second delete loop (operations.ts lines 119-129). -/
def removeFromLinkedStep (i : String) (s : Store) (backlinkNoteId : String) : Store :=
  match dbGetNote s backlinkNoteId with
  | none => s
  | some _ => { s with notes := setNote backlinkNoteId (dropLinked i) s.notes }

/-- deleteNote of operations.ts: scrub the dying note's id from the adjacency
of the neighbors it recorded, delete every Link row in which it is source or
target, then delete the row itself.  Nothing happens when the id is absent. -/
def deleteNote (i : String) (s : Store) : Store :=
  match dbGetNote s i with
  | none => s
  | some note =>
    let s1 := note.linkedNoteIds.foldl (removeFromBacklinksStep i) s
    let s2 := note.backlinkNoteIds.foldl (removeFromLinkedStep i) s1
    let s3 : Store := { s2 with links := s2.links.filter (fun l => ¬ (l.sourceNoteId = i ∨ l.targetNoteId = i)) }
    { s3 with notes := s3.notes.filter (fun n => n.id ≠ i) }

/-- Uniqueness of the notes-table primary key, guaranteed by the database. -/
abbrev NodupIds (s : Store) : Prop := (s.notes.map Note.id).Nodup

/-- Adjacency symmetry invariant of the spec: a note is among another's
outgoing ids exactly when the latter is among the former's incoming ids. -/
abbrev Symm (s : Store) : Prop :=
  ∀ a ∈ s.notes, ∀ b ∈ s.notes, (b.id ∈ a.linkedNoteIds ↔ a.id ∈ b.backlinkNoteIds)

/-- Central dedup invariant claimed by the spec: no two Link rows share source
id and target title. -/
abbrev LinkDedup (s : Store) : Prop :=
  s.links.Pairwise (fun l1 l2 => ¬ (l1.sourceNoteId = l2.sourceNoteId ∧ l1.targetTitle = l2.targetTitle))

/-- The dedup invariant the code actually maintains: no two unresolved Link
rows share source id and target title. -/
abbrev UnresolvedDedup (s : Store) : Prop :=
  s.links.Pairwise (fun l1 l2 =>
    l1.resolved = false → l2.resolved = false →
      ¬ (l1.sourceNoteId = l2.sourceNoteId ∧ l1.targetTitle = l2.targetTitle))

/-- Outgoing adjacency of the note with the given id (empty when absent). -/
def outgoingOf (s : Store) (i : String) : List String :=
  match dbGetNote s i with
  | some n => n.linkedNoteIds
  | none => []

/-- Combined per-note effect of one content-commit on the notes table: point
the source at the new ids, then add the source to added targets' backlinks,
then delete it from removed targets' backlinks. -/
def updNoteF (nid : String) (newIds added removed : List String) : Note → Note := fun n =>
  let n1 := if n.id = nid then setLinked newIds n else n
  let n2 := if n1.id ∈ added then pushBacklink nid n1 else n1
  if n2.id ∈ removed then pullBacklink nid n2 else n2

/-- Combined per-note effect of a delete on the surviving rows of the notes
table: scrub the dying id from the adjacency of the neighbors it recorded. -/
def delNoteF (i : String) (outs ins : List String) : Note → Note := fun n =>
  let n1 := if n.id ∈ outs then dropBacklink i n else n
  if n1.id ∈ ins then dropLinked i n1 else n1

/-- Note row with the given id and title and empty adjacency, as createNote
would produce for an explicit title. -/
def mkNote (i t : String) : Note :=
  { id := i, title := t, content := emptyS, contentText := emptyS, tags := [],
    createdAt := 0, updatedAt := 0, linkedNoteIds := [], backlinkNoteIds := [] }

/-- Placeholder Link row as the code creates it for a dangling reference. -/
def unresolvedRow (src t : String) : Link :=
  { id := "L0", sourceNoteId := src, targetNoteId := emptyS, targetTitle := t,
    createdAt := 0, resolved := false }

/-- Id constant used by the concrete stores. -/
def idA : String := "a"

/-- Id constant used by the concrete stores. -/
def idB : String := "b"

/-- Id constant used by the concrete stores. -/
def idB1 : String := "b1"

/-- Id constant used by the concrete stores. -/
def idB2 : String := "b2"

/-- Id constant used by the concrete stores. -/
def idN1 : String := "n1"

/-- Title constant used by the concrete stores. -/
def titleA : String := "A"

/-- Title constant used by the concrete stores. -/
def titleB : String := "B"

/-- Title shared by two notes in the ambiguous store. -/
def titleDup : String := "Dup"

/-- Title referenced before any note carries it. -/
def titleX : String := "X"

/-- Title a note is renamed from. -/
def titleOld : String := "Old"

/-- Title a note is renamed to. -/
def titleNew : String := "New"

/-- Body text consisting of one reference to the duplicated title. -/
def bodyDup : String := "[[Dup]]"

/-- Body text with no reference markers. -/
def bodyPlain : String := "just some text"

/-- Store with two notes sharing the title Dup and a third note: the
ambiguous-title situation of spec scenario 4. -/
def exDup : Store :=
  { notes := [mkNote idA titleA, mkNote idB1 titleDup, mkNote idB2 titleDup],
    links := [], nextId := 0 }

/-- Store with one note holding a pending unresolved reference to the
not-yet-existing title X. -/
def exPend : Store :=
  { notes := [mkNote idA titleA], links := [unresolvedRow idA titleX], nextId := 0 }

/-- Store with a pending unresolved reference to the title New and a note
currently titled Old, ready to be renamed. -/
def exRen : Store :=
  { notes := [mkNote idA titleA, mkNote idN1 titleOld],
    links := [unresolvedRow idA titleNew], nextId := 0 }

/-- Store with a single note and no links. -/
def exOne : Store := { notes := [mkNote idA titleA], links := [], nextId := 0 }

/-- Note a of the symmetric two-note store, linking to b. -/
def exPairA : Note := { mkNote idA titleA with linkedNoteIds := [idB] }

/-- Note b of the symmetric two-note store, linked from a. -/
def exPairB : Note := { mkNote idB titleB with backlinkNoteIds := [idA] }

/-- Store with two notes symmetrically linked a to b. -/
def exPair : Store :=
  { notes := [exPairA, exPairB],
    links := [{ id := "L1", sourceNoteId := idA, targetNoteId := idB, targetTitle := titleB,
                createdAt := 0, resolved := true }],
    nextId := 0 }

/-- Id matching no note of any concrete store. -/
def idZ : String := "zz"

/-- Body text referencing the title A twice with stray whitespace. -/
def bodyRefA : String := "see [[ A ]] and [[A]]"

/-- Store with no rows at all. -/
def exEmpty : Store := { notes := [], links := [], nextId := 0 }

/-! Lemmas about first-occurrence deduplication. -/

theorem mem_dedupAux (l : List String) :
    ∀ (seen : List String) (x : String), x ∈ dedupAux seen l ↔ x ∈ l ∧ x ∉ seen := by
  induction l with
  | nil => intro seen x; simp [dedupAux]
  | cons c t ih =>
    intro seen x
    by_cases hc : c ∈ seen
    · simp only [dedupAux, if_pos hc, ih, List.mem_cons]
      constructor
      · rintro ⟨hx, hs⟩; exact ⟨Or.inr hx, hs⟩
      · rintro ⟨hx | hx, hs⟩
        · exact absurd hc (hx ▸ hs)
        · exact ⟨hx, hs⟩
    · simp only [dedupAux, if_neg hc, List.mem_cons, ih]
      constructor
      · rintro (rfl | ⟨hx, hs⟩)
        · exact ⟨Or.inl rfl, hc⟩
        · refine ⟨Or.inr hx, fun hmem => hs ?_⟩
          simpa using Or.inr hmem
      · rintro ⟨rfl | hx, hs⟩
        · exact Or.inl rfl
        · by_cases hxc : x = c
          · exact Or.inl hxc
          · exact Or.inr ⟨hx, by simp [hxc, hs]⟩

theorem dedupAux_nodup (l : List String) : ∀ seen, (dedupAux seen l).Nodup := by
  induction l with
  | nil => intro seen; simp [dedupAux]
  | cons c t ih =>
    intro seen
    by_cases hc : c ∈ seen
    · simpa [dedupAux, hc] using ih seen
    · simp only [dedupAux, if_neg hc, List.nodup_cons]
      refine ⟨fun hmem => ?_, ih (c :: seen)⟩
      exact ((mem_dedupAux t (c :: seen) c).mp hmem).2 (List.mem_cons_self c seen)

theorem dedupAux_sublist (l : List String) : ∀ seen, List.Sublist (dedupAux seen l) l := by
  induction l with
  | nil => intro seen; simp [dedupAux]
  | cons c t ih =>
    intro seen
    by_cases hc : c ∈ seen
    · simpa [dedupAux, hc] using (ih seen).cons c
    · simpa [dedupAux, hc] using (ih (c :: seen)).cons₂ c

theorem dedupAux_pairwise (l : List String) :
    ∀ seen, (dedupAux seen l).Pairwise (fun a b => l.indexOf a < l.indexOf b) := by
  induction l with
  | nil => intro seen; simp [dedupAux]
  | cons c t ih =>
    intro seen
    by_cases hc : c ∈ seen
    · simp only [dedupAux, if_pos hc]
      refine List.Pairwise.imp_of_mem ?_ (ih seen)
      intro a b ha hb hlt
      have hane : a ≠ c := fun h => ((mem_dedupAux t seen a).mp ha).2 (h ▸ hc)
      have hbne : b ≠ c := fun h => ((mem_dedupAux t seen b).mp hb).2 (h ▸ hc)
      rw [List.indexOf_cons_ne t (Ne.symm hane), List.indexOf_cons_ne t (Ne.symm hbne)]
      omega
    · simp only [dedupAux, if_neg hc, List.pairwise_cons]
      constructor
      · intro b hb
        have hbne : b ≠ c := fun h =>
          ((mem_dedupAux t (c :: seen) b).mp hb).2 (h ▸ List.mem_cons_self c seen)
        rw [List.indexOf_cons_self, List.indexOf_cons_ne t (Ne.symm hbne)]
        omega
      · refine List.Pairwise.imp_of_mem ?_ (ih (c :: seen))
        intro a b ha hb hlt
        have hane : a ≠ c := fun h =>
          ((mem_dedupAux t (c :: seen) a).mp ha).2 (h ▸ List.mem_cons_self c seen)
        have hbne : b ≠ c := fun h =>
          ((mem_dedupAux t (c :: seen) b).mp hb).2 (h ▸ List.mem_cons_self c seen)
        rw [List.indexOf_cons_ne t (Ne.symm hane), List.indexOf_cons_ne t (Ne.symm hbne)]
        omega

theorem mem_dedupFirst (l : List String) (x : String) : x ∈ dedupFirst l ↔ x ∈ l := by
  simp [dedupFirst, mem_dedupAux]

theorem dedupFirst_nodup (l : List String) : (dedupFirst l).Nodup := dedupAux_nodup l []

theorem dedupFirst_sublist (l : List String) : List.Sublist (dedupFirst l) l :=
  dedupAux_sublist l []

theorem dedupFirst_pairwise (l : List String) :
    (dedupFirst l).Pairwise (fun a b => l.indexOf a < l.indexOf b) := dedupAux_pairwise l []

theorem dedupAux_eq_self (l : List String) :
    ∀ seen, l.Nodup → (∀ x ∈ l, x ∉ seen) → dedupAux seen l = l := by
  induction l with
  | nil => intro seen _ _; rfl
  | cons c t ih =>
    intro seen hnd hdis
    have hc : c ∉ seen := hdis c (List.mem_cons_self c t)
    simp only [dedupAux, if_neg hc]
    rw [ih (c :: seen) (List.nodup_cons.mp hnd).2]
    intro x hx
    simp only [List.mem_cons]
    rintro (rfl | hmem)
    · exact (List.nodup_cons.mp hnd).1 hx
    · exact hdis x (List.mem_cons_of_mem c hx) hmem

theorem dedupFirst_eq_self {l : List String} (h : l.Nodup) : dedupFirst l = l :=
  dedupAux_eq_self l [] h (by simp)

theorem mem_setAdd (l : List String) (x y : String) :
    y ∈ setAdd l x ↔ y ∈ l ∨ y = x := by
  by_cases hx : x ∈ dedupFirst l
  · have hxl : x ∈ l := (mem_dedupFirst l x).mp hx
    simp only [setAdd, hx, if_true, mem_dedupFirst]
    constructor
    · exact Or.inl
    · rintro (h | rfl)
      · exact h
      · exact hxl
  · simp [setAdd, hx, mem_dedupFirst]

theorem setAdd_nodup (l : List String) (x : String) : (setAdd l x).Nodup := by
  by_cases hx : x ∈ dedupFirst l
  · simpa [setAdd, hx] using dedupFirst_nodup l
  · simp only [setAdd, hx, if_false]
    refine List.Nodup.append (dedupFirst_nodup l) (List.nodup_singleton x) ?_
    intro a ha hb
    rw [List.mem_singleton] at hb
    exact hx (hb ▸ ha)

theorem setAdd_idem (l : List String) (x : String) : setAdd (setAdd l x) x = setAdd l x := by
  have hx : x ∈ setAdd l x := (mem_setAdd l x x).mpr (Or.inr rfl)
  have hnd : (setAdd l x).Nodup := setAdd_nodup l x
  have h1 : dedupFirst (setAdd l x) = setAdd l x := dedupFirst_eq_self hnd
  show (let d := dedupFirst (setAdd l x); if x ∈ d then d else d ++ [x]) = setAdd l x
  rw [h1]
  simp [hx]

/-! Lemmas about the wiki-link scanner. -/

theorem scanGo_sound :
    ∀ (fuel : Nat) (cs : List Char), ∀ r ∈ scanGo fuel cs,
      r ≠ [] ∧ (∀ ch ∈ r, ch ≠ ']') ∧
        ∃ pre post, cs = pre ++ '[' :: '[' :: (r ++ ']' :: ']' :: post) := by
  intro fuel
  induction fuel with
  | zero => intro cs r hr; simp [scanGo] at hr
  | succ fuel ih =>
    intro cs r hr
    match cs with
    | [] => simp [scanGo] at hr
    | c :: rest =>
      simp only [scanGo] at hr
      split at hr
      case isTrue hc =>
        split at hr
        case _ => simp at hr
        case _ c2 rest2 =>
          split at hr
          case isTrue hc2 =>
            split at hr
            case _ d1 d2 rest3 heq =>
              split at hr
              case isTrue hcond =>
                obtain ⟨h1, h2, h3⟩ := hcond
                have hsplit := List.takeWhile_append_dropWhile (fun d => d ≠ ']') rest2
                rw [heq, h1, h2] at hsplit
                rcases List.mem_cons.mp hr with rfl | hr2
                · subst hc; subst hc2
                  refine ⟨h3, ?_, [], rest3, ?_⟩
                  · intro ch hch
                    simpa using List.mem_takeWhile_imp hch
                  · conv_lhs => rw [← hsplit]
                    simp
                · obtain ⟨hne, hchars, pre, post, hdec⟩ := ih rest3 r hr2
                  subst hc; subst hc2
                  refine ⟨hne, hchars,
                    '[' :: '[' :: (rest2.takeWhile (fun d => d ≠ ']') ++ ']' :: ']' :: pre),
                    post, ?_⟩
                  conv_lhs => rw [← hsplit]
                  rw [hdec]
                  simp
              case isFalse hcond =>
                obtain ⟨hne, hchars, pre, post, hdec⟩ := ih (c2 :: rest2) r hr
                exact ⟨hne, hchars, c :: pre, post, by simp [hdec]⟩
            case _ heq hshape =>
              obtain ⟨hne, hchars, pre, post, hdec⟩ := ih (c2 :: rest2) r hr
              exact ⟨hne, hchars, c :: pre, post, by simp [hdec]⟩
          case isFalse hc2 =>
            obtain ⟨hne, hchars, pre, post, hdec⟩ := ih (c2 :: rest2) r hr
            exact ⟨hne, hchars, c :: pre, post, by simp [hdec]⟩
      case isFalse hc =>
        obtain ⟨hne, hchars, pre, post, hdec⟩ := ih rest r hr
        exact ⟨hne, hchars, c :: pre, post, by simp [hdec]⟩


theorem scanWikiLinks_sound (cs : List Char) :
    ∀ r ∈ scanWikiLinks cs,
      r ≠ [] ∧ (∀ ch ∈ r, ch ≠ ']') ∧
        ∃ pre post, cs = pre ++ '[' :: '[' :: (r ++ ']' :: ']' :: post) :=
  scanGo_sound cs.length cs

theorem scanWikiLinks_eq_nil_of_no_close (cs : List Char) (h : ∀ ch ∈ cs, ch ≠ ']') :
    scanWikiLinks cs = [] := by
  rcases hscan : scanWikiLinks cs with _ | ⟨r, rs⟩
  · rfl
  · exfalso
    obtain ⟨_, _, pre, post, hdec⟩ := scanWikiLinks_sound cs r (hscan ▸ List.mem_cons_self r rs)
    have : (']' : Char) ∈ cs := by
      rw [hdec]; simp
    exact h ']' this rfl

/-! Lemmas about primary-key lookup and row updates. -/

theorem findNote_eq_none {ns : List Note} {i : String} :
    findNote ns i = none ↔ ∀ n ∈ ns, n.id ≠ i := by
  simp [findNote, List.find?_eq_none]

theorem findNote_mem {ns : List Note} {i : String} {m : Note} (h : findNote ns i = some m) :
    m ∈ ns := List.mem_of_find?_eq_some h

theorem findNote_id {ns : List Note} {i : String} {m : Note} (h : findNote ns i = some m) :
    m.id = i := by
  have := List.find?_some h
  simpa using this

theorem findNote_map (φ : Note → Note) (hφ : ∀ n, (φ n).id = n.id) (ns : List Note)
    (i : String) : findNote (ns.map φ) i = (findNote ns i).map φ := by
  induction ns with
  | nil => rfl
  | cons n t ih =>
    by_cases h : n.id = i
    · simp [findNote, List.find?_cons, hφ, h]
    · simpa [findNote, List.find?_cons, hφ, h] using ih

theorem findNote_of_mem_nodup {ns : List Note} (hnd : (ns.map Note.id).Nodup) {n : Note}
    (hmem : n ∈ ns) : findNote ns n.id = some n := by
  induction ns with
  | nil => exact absurd hmem (List.not_mem_nil n)
  | cons m t ih =>
    rcases List.mem_cons.mp hmem with rfl | hmem2
    · simp [findNote, List.find?_cons]
    · have hne : m.id ≠ n.id := by
        intro he
        have : n.id ∈ t.map Note.id := List.mem_map_of_mem Note.id hmem2
        rw [List.map_cons, List.nodup_cons] at hnd
        exact hnd.1 (he ▸ this)
      have := ih (by rw [List.map_cons, List.nodup_cons] at hnd; exact hnd.2) hmem2
      simpa [findNote, List.find?_cons, hne] using this

theorem nodupIds_inj {ns : List Note} (hnd : (ns.map Note.id).Nodup) {a b : Note}
    (ha : a ∈ ns) (hb : b ∈ ns) (h : a.id = b.id) : a = b := by
  have h1 := findNote_of_mem_nodup hnd ha
  have h2 := findNote_of_mem_nodup hnd hb
  rw [h] at h1
  rw [h1] at h2
  exact Option.some_injective Note h2

theorem setNote_eq_of_absent {ns : List Note} {i : String} (f : Note → Note)
    (h : ∀ n ∈ ns, n.id ≠ i) : setNote i f ns = ns := by
  unfold setNote
  induction ns with
  | nil => rfl
  | cons n t ih =>
    simp only [List.map_cons, if_neg (h n (List.mem_cons_self n t))]
    rw [ih (fun m hm => h m (List.mem_cons_of_mem n hm))]

theorem foldl_keep {α β : Type} (b : β) (xs : List α) :
    xs.foldl (fun acc _ => acc) b = b := by
  induction xs generalizing b with
  | nil => rfl
  | cons x t ih => simpa using ih b

theorem foldl_notes_eq (step : Store → String → Store) (g : List Note → String → List Note)
    (h : ∀ s x, (step s x).notes = g s.notes x) :
    ∀ (xs : List String) (s : Store), (xs.foldl step s).notes = xs.foldl g s.notes := by
  intro xs
  induction xs with
  | nil => intro s; rfl
  | cons x t ih =>
    intro s
    simp only [List.foldl_cons]
    rw [ih (step s x), h s x]

theorem foldl_preserve {α : Type} (P : Store → Prop) (step : Store → α → Store)
    (h : ∀ s x, P s → P (step s x)) :
    ∀ (xs : List α) (s : Store), P s → P (xs.foldl step s) := by
  intro xs
  induction xs with
  | nil => intro s hs; exact hs
  | cons x t ih => intro s hs; exact ih (step s x) (h s x hs)

theorem foldl_setNote (f : Note → Note) (hid : ∀ n, (f n).id = n.id)
    (hidem : ∀ n, f (f n) = f n) :
    ∀ (ids : List String) (ns : List Note),
      ids.foldl (fun ms i => setNote i f ms) ns =
        ns.map (fun n => if n.id ∈ ids then f n else n) := by
  intro ids
  induction ids with
  | nil =>
    intro ns
    simp
  | cons i ids ih =>
    intro ns
    simp only [List.foldl_cons]
    rw [ih (setNote i f ns)]
    unfold setNote
    rw [List.map_map]
    refine List.map_congr_left ?_
    intro n _
    by_cases h1 : n.id = i
    · by_cases h2 : i ∈ ids
      · have h2b : n.id ∈ ids := h1 ▸ h2
        simp [Function.comp, h1, hid, h2, h2b, hidem]
      · have h2b : n.id ∉ ids := h1 ▸ h2
        simp [Function.comp, h1, hid, h2, h2b]
    · by_cases h2 : n.id ∈ ids
      · simp [Function.comp, h1, hid, h2]
      · simp [Function.comp, h1, hid, h2]

/-! Identity and idempotence facts for the per-note field changes. -/

theorem pushBacklink_id (nid : String) (n : Note) : (pushBacklink nid n).id = n.id := rfl

theorem pullBacklink_id (nid : String) (n : Note) : (pullBacklink nid n).id = n.id := rfl

theorem setLinked_id (ids : List String) (n : Note) : (setLinked ids n).id = n.id := rfl

theorem dropBacklink_id (i : String) (n : Note) : (dropBacklink i n).id = n.id := rfl

theorem dropLinked_id (i : String) (n : Note) : (dropLinked i n).id = n.id := rfl

theorem filter_ne_idem (l : List String) (i : String) :
    (l.filter (fun b => b ≠ i)).filter (fun b => b ≠ i) = l.filter (fun b => b ≠ i) :=
  List.filter_eq_self.mpr (fun a ha => (List.mem_filter.mp ha).2)

theorem pushBacklink_idem (nid : String) (n : Note) :
    pushBacklink nid (pushBacklink nid n) = pushBacklink nid n := by
  cases n
  simp [pushBacklink, setAdd_idem]

theorem pullBacklink_idem (nid : String) (n : Note) :
    pullBacklink nid (pullBacklink nid n) = pullBacklink nid n := by
  cases n
  simp only [pullBacklink]
  rw [dedupFirst_eq_self (List.Nodup.filter _ (dedupFirst_nodup _)), filter_ne_idem]

theorem dropBacklink_idem (i : String) (n : Note) :
    dropBacklink i (dropBacklink i n) = dropBacklink i n := by
  cases n
  simp [dropBacklink, filter_ne_idem]

theorem dropLinked_idem (i : String) (n : Note) :
    dropLinked i (dropLinked i n) = dropLinked i n := by
  cases n
  simp [dropLinked, filter_ne_idem]

/-! Projections of the loop bodies of updateNoteLinks and deleteNote. -/

theorem addBacklinkStep_notes (nid : String) (now : Nat) (s : Store) (j : String) :
    (addBacklinkStep nid now s j).notes = setNote j (pushBacklink nid) s.notes := by
  unfold addBacklinkStep
  rcases h : dbGetNote s j with _ | m
  · exact (setNote_eq_of_absent _ (findNote_eq_none.mp h)).symm
  · simp [addLink]

theorem removeBacklinkStep_notes (nid : String) (s : Store) (j : String) :
    (removeBacklinkStep nid s j).notes = setNote j (pullBacklink nid) s.notes := by
  unfold removeBacklinkStep
  rcases h : dbGetNote s j with _ | m
  · exact (setNote_eq_of_absent _ (findNote_eq_none.mp h)).symm
  · rfl

theorem addUnresolvedStep_notes (nid : String) (now : Nat) (s : Store) (t : String) :
    (addUnresolvedStep nid now s t).notes = s.notes := by
  unfold addUnresolvedStep
  split
  · rfl
  · rfl

theorem removeFromBacklinksStep_notes (i : String) (s : Store) (j : String) :
    (removeFromBacklinksStep i s j).notes = setNote j (dropBacklink i) s.notes := by
  unfold removeFromBacklinksStep
  rcases h : dbGetNote s j with _ | m
  · exact (setNote_eq_of_absent _ (findNote_eq_none.mp h)).symm
  · rfl

theorem removeFromLinkedStep_notes (i : String) (s : Store) (j : String) :
    (removeFromLinkedStep i s j).notes = setNote j (dropLinked i) s.notes := by
  unfold removeFromLinkedStep
  rcases h : dbGetNote s j with _ | m
  · exact (setNote_eq_of_absent _ (findNote_eq_none.mp h)).symm
  · rfl

theorem removeFromBacklinksStep_links (i : String) (s : Store) (j : String) :
    (removeFromBacklinksStep i s j).links = s.links := by
  unfold removeFromBacklinksStep
  rcases h : dbGetNote s j with _ | m <;> rfl

theorem removeFromLinkedStep_links (i : String) (s : Store) (j : String) :
    (removeFromLinkedStep i s j).links = s.links := by
  unfold removeFromLinkedStep
  rcases h : dbGetNote s j with _ | m <;> rfl

theorem removeFromBacklinksStep_nextId (i : String) (s : Store) (j : String) :
    (removeFromBacklinksStep i s j).nextId = s.nextId := by
  unfold removeFromBacklinksStep
  rcases h : dbGetNote s j with _ | m <;> rfl

theorem removeFromLinkedStep_nextId (i : String) (s : Store) (j : String) :
    (removeFromLinkedStep i s j).nextId = s.nextId := by
  unfold removeFromLinkedStep
  rcases h : dbGetNote s j with _ | m <;> rfl

/-! Closed form of the notes table after a content-commit. -/

theorem updateNoteLinks_notes (nid c : String) (now : Nat) (s : Store) (cur : Note)
    (h : dbGetNote s nid = some cur) :
    (updateNoteLinks nid c now s).notes =
      s.notes.map (updNoteF nid (newLinkedIds c s.notes)
        ((newLinkedIds c s.notes).filter (fun i => i ∉ cur.linkedNoteIds))
        (cur.linkedNoteIds.filter (fun i => i ∉ newLinkedIds c s.notes))) := by
  simp only [updateNoteLinks, h]
  rw [foldl_notes_eq (addUnresolvedStep nid now) (fun ns _ => ns)
    (addUnresolvedStep_notes nid now)]
  rw [foldl_keep]
  rw [foldl_notes_eq (removeBacklinkStep nid) (fun ns j => setNote j (pullBacklink nid) ns)
    (removeBacklinkStep_notes nid)]
  rw [foldl_setNote (pullBacklink nid) (pullBacklink_id nid) (pullBacklink_idem nid)]
  rw [foldl_notes_eq (addBacklinkStep nid now) (fun ns j => setNote j (pushBacklink nid) ns)
    (addBacklinkStep_notes nid now)]
  rw [foldl_setNote (pushBacklink nid) (pushBacklink_id nid) (pushBacklink_idem nid)]
  simp only [setNote, List.map_map]
  rfl

/-! Closed form of the store after a delete. -/

theorem deleteNote_notes (i : String) (s : Store) (n0 : Note) (h : dbGetNote s i = some n0) :
    (deleteNote i s).notes =
      (s.notes.map (delNoteF i n0.linkedNoteIds n0.backlinkNoteIds)).filter
        (fun n => n.id ≠ i) := by
  simp only [deleteNote, h]
  rw [foldl_notes_eq (removeFromLinkedStep i) (fun ns j => setNote j (dropLinked i) ns)
    (removeFromLinkedStep_notes i)]
  rw [foldl_setNote (dropLinked i) (dropLinked_id i) (dropLinked_idem i)]
  rw [foldl_notes_eq (removeFromBacklinksStep i) (fun ns j => setNote j (dropBacklink i) ns)
    (removeFromBacklinksStep_notes i)]
  rw [foldl_setNote (dropBacklink i) (dropBacklink_id i) (dropBacklink_idem i)]
  simp only [List.map_map]
  rfl

theorem deleteNote_links (i : String) (s : Store) (n0 : Note) (h : dbGetNote s i = some n0) :
    (deleteNote i s).links =
      s.links.filter (fun l => ¬ (l.sourceNoteId = i ∨ l.targetNoteId = i)) := by
  simp only [deleteNote, h]
  have h2 : ∀ (xs : List String) (s1 : Store),
      (xs.foldl (removeFromLinkedStep i) s1).links = s1.links := by
    intro xs
    induction xs with
    | nil => intro s1; rfl
    | cons x t ih => intro s1; rw [List.foldl_cons, ih, removeFromLinkedStep_links]
  have h1 : ∀ (xs : List String) (s1 : Store),
      (xs.foldl (removeFromBacklinksStep i) s1).links = s1.links := by
    intro xs
    induction xs with
    | nil => intro s1; rfl
    | cons x t ih => intro s1; rw [List.foldl_cons, ih, removeFromBacklinksStep_links]
  rw [h2, h1]

/-! Field projections of the combined per-note effects. -/

theorem updNoteF_id (nid : String) (a b c : List String) (n : Note) :
    (updNoteF nid a b c n).id = n.id := by
  simp only [updNoteF]
  split_ifs <;> rfl

theorem updNoteF_title (nid : String) (a b c : List String) (n : Note) :
    (updNoteF nid a b c n).title = n.title := by
  simp only [updNoteF]
  split_ifs <;> rfl

theorem updNoteF_linked (nid : String) (a b c : List String) (n : Note) :
    (updNoteF nid a b c n).linkedNoteIds = if n.id = nid then a else n.linkedNoteIds := by
  simp only [updNoteF]
  split_ifs <;> rfl

theorem updNoteF_backlink (nid : String) (a b c : List String) (n : Note)
    (hdisj : ∀ x, x ∈ b → x ∉ c) :
    (updNoteF nid a b c n).backlinkNoteIds =
      if n.id ∈ b then setAdd n.backlinkNoteIds nid
      else if n.id ∈ c then (dedupFirst n.backlinkNoteIds).filter (fun x => x ≠ nid)
      else n.backlinkNoteIds := by
  have hid1 : (if n.id = nid then setLinked a n else n).id = n.id := by split_ifs <;> rfl
  have hbl1 : (if n.id = nid then setLinked a n else n).backlinkNoteIds =
      n.backlinkNoteIds := by split_ifs <;> rfl
  simp only [updNoteF, hid1]
  by_cases hb : n.id ∈ b
  · have hc : n.id ∉ c := hdisj n.id hb
    simp [hb, pushBacklink, hid1, hc, hbl1]
  · by_cases hc : n.id ∈ c
    · simp [hb, hc, pullBacklink, hid1, hbl1]
    · simp [hb, hc, hid1, hbl1]

theorem delNoteF_id (i : String) (outs ins : List String) (n : Note) :
    (delNoteF i outs ins n).id = n.id := by
  simp only [delNoteF]
  split_ifs <;> rfl

theorem delNoteF_title (i : String) (outs ins : List String) (n : Note) :
    (delNoteF i outs ins n).title = n.title := by
  simp only [delNoteF]
  split_ifs <;> rfl

theorem delNoteF_linked (i : String) (outs ins : List String) (n : Note) :
    (delNoteF i outs ins n).linkedNoteIds =
      if n.id ∈ ins then n.linkedNoteIds.filter (fun x => x ≠ i)
      else n.linkedNoteIds := by
  have hid1 : (if n.id ∈ outs then dropBacklink i n else n).id = n.id := by split_ifs <;> rfl
  have hl1 : (if n.id ∈ outs then dropBacklink i n else n).linkedNoteIds =
      n.linkedNoteIds := by split_ifs <;> rfl
  simp only [delNoteF, hid1]
  by_cases hi : n.id ∈ ins
  · simp [hi, dropLinked, hl1]
  · simp [hi, hl1]

theorem delNoteF_backlink (i : String) (outs ins : List String) (n : Note) :
    (delNoteF i outs ins n).backlinkNoteIds =
      if n.id ∈ outs then n.backlinkNoteIds.filter (fun x => x ≠ i)
      else n.backlinkNoteIds := by
  simp only [delNoteF]
  by_cases ho : n.id ∈ outs
  · by_cases hi : n.id ∈ ins
    · simp [ho, hi, dropLinked, dropBacklink, dropBacklink_id]
    · simp [ho, hi, dropBacklink, dropBacklink_id]
  · by_cases hi : n.id ∈ ins
    · simp [ho, hi, dropLinked]
    · simp [ho, hi]

theorem mem_filter_dedup (l : List String) (nid x : String) :
    x ∈ (dedupFirst l).filter (fun b => b ≠ nid) ↔ x ∈ l ∧ x ≠ nid := by
  simp [List.mem_filter, mem_dedupFirst]

theorem updateNoteLinks_of_absent (nid c : String) (now : Nat) (s : Store)
    (h : dbGetNote s nid = none) : updateNoteLinks nid c now s = s := by
  simp [updateNoteLinks, h]

theorem deleteNote_of_absent (i : String) (s : Store) (h : dbGetNote s i = none) :
    deleteNote i s = s := by
  simp [deleteNote, h]

/-! Preservation of adjacency symmetry. -/

theorem symm_preserved_update (nid c : String) (now : Nat) (s : Store)
    (hnd : NodupIds s) (hsym : Symm s) : Symm (updateNoteLinks nid c now s) := by
  rcases h : dbGetNote s nid with _ | cur
  · rw [updateNoteLinks_of_absent nid c now s h]
    exact hsym
  · have hcurmem : cur ∈ s.notes := findNote_mem h
    have hcurid : cur.id = nid := findNote_id h
    have hnotes := updateNoteLinks_notes nid c now s cur h
    intro a ha b hb
    rw [hnotes] at ha hb
    obtain ⟨na, hna, rfl⟩ := List.mem_map.mp ha
    obtain ⟨nb, hnb, rfl⟩ := List.mem_map.mp hb
    have hdisj : ∀ x, x ∈ (newLinkedIds c s.notes).filter (fun i => i ∉ cur.linkedNoteIds) →
        x ∉ cur.linkedNoteIds.filter (fun i => i ∉ newLinkedIds c s.notes) := by
      intro x hx hx2
      have h1 := List.mem_filter.mp hx
      have h2 := List.mem_filter.mp hx2
      simp only [decide_eq_true_eq] at h1 h2
      exact h1.2 h2.1
    rw [updNoteF_id, updNoteF_id, updNoteF_linked,
      updNoteF_backlink _ _ _ _ _ hdisj]
    by_cases hA : na.id = nid
    · have hnacur : na = cur := nodupIds_inj hnd hna hcurmem (by rw [hA, hcurid])
      rw [if_pos hA]
      by_cases hb1 : nb.id ∈ (newLinkedIds c s.notes).filter (fun i => i ∉ cur.linkedNoteIds)
      · have hbnew : nb.id ∈ newLinkedIds c s.notes := (List.mem_filter.mp hb1).1
        rw [if_pos hb1]
        simp only [mem_setAdd]
        constructor
        · intro _; exact Or.inr hA
        · intro _; exact hbnew
      · rw [if_neg hb1]
        by_cases hb2 : nb.id ∈ cur.linkedNoteIds.filter (fun i => i ∉ newLinkedIds c s.notes)
        · have hbold := List.mem_filter.mp hb2
          simp only [decide_eq_true_eq] at hbold
          rw [if_pos hb2]
          simp only [mem_filter_dedup]
          constructor
          · intro hmem; exact absurd hmem hbold.2
          · rintro ⟨_, hne⟩; exact absurd hA hne
        · rw [if_neg hb2]
          have hiff : nb.id ∈ newLinkedIds c s.notes ↔ nb.id ∈ cur.linkedNoteIds := by
            constructor
            · intro hmem
              by_contra hold
              exact hb1 (List.mem_filter.mpr ⟨hmem, by simpa using hold⟩)
            · intro hold
              by_contra hmem
              exact hb2 (List.mem_filter.mpr ⟨hold, by simpa using hmem⟩)
          rw [hiff, hnacur]
          exact hsym cur hcurmem nb hnb
    · rw [if_neg hA]
      by_cases hb1 : nb.id ∈ (newLinkedIds c s.notes).filter (fun i => i ∉ cur.linkedNoteIds)
      · rw [if_pos hb1]
        simp only [mem_setAdd]
        constructor
        · intro hmem; exact Or.inl ((hsym na hna nb hnb).mp hmem)
        · rintro (hmem | heq)
          · exact (hsym na hna nb hnb).mpr hmem
          · exact absurd heq hA
      · rw [if_neg hb1]
        by_cases hb2 : nb.id ∈ cur.linkedNoteIds.filter (fun i => i ∉ newLinkedIds c s.notes)
        · rw [if_pos hb2]
          simp only [mem_filter_dedup]
          constructor
          · intro hmem; exact ⟨(hsym na hna nb hnb).mp hmem, hA⟩
          · rintro ⟨hmem, _⟩; exact (hsym na hna nb hnb).mpr hmem
        · rw [if_neg hb2]
          exact hsym na hna nb hnb

theorem symm_preserved_delete (i : String) (s : Store) (hsym : Symm s) :
    Symm (deleteNote i s) := by
  rcases h : dbGetNote s i with _ | n0
  · rw [deleteNote_of_absent i s h]
    exact hsym
  · intro a ha b hb
    rw [deleteNote_notes i s n0 h] at ha hb
    have ha2 := List.mem_filter.mp ha
    have hb2 := List.mem_filter.mp hb
    obtain ⟨ma, hma, rfl⟩ := List.mem_map.mp ha2.1
    obtain ⟨mb, hmb, rfl⟩ := List.mem_map.mp hb2.1
    have hai : ma.id ≠ i := by
      have := ha2.2
      simpa [delNoteF_id] using this
    have hbi : mb.id ≠ i := by
      have := hb2.2
      simpa [delNoteF_id] using this
    rw [delNoteF_id, delNoteF_id, delNoteF_linked, delNoteF_backlink]
    have hsab := hsym ma hma mb hmb
    by_cases h1 : ma.id ∈ n0.backlinkNoteIds
    · by_cases h2 : mb.id ∈ n0.linkedNoteIds
      · rw [if_pos h1, if_pos h2]
        simp only [List.mem_filter, decide_eq_true_eq]
        constructor
        · rintro ⟨hmem, _⟩; exact ⟨hsab.mp hmem, hai⟩
        · rintro ⟨hmem, _⟩; exact ⟨hsab.mpr hmem, hbi⟩
      · rw [if_pos h1, if_neg h2]
        simp only [List.mem_filter, decide_eq_true_eq]
        constructor
        · rintro ⟨hmem, _⟩; exact hsab.mp hmem
        · intro hmem; exact ⟨hsab.mpr hmem, hbi⟩
    · by_cases h2 : mb.id ∈ n0.linkedNoteIds
      · rw [if_neg h1, if_pos h2]
        simp only [List.mem_filter, decide_eq_true_eq]
        constructor
        · intro hmem; exact ⟨hsab.mp hmem, hai⟩
        · rintro ⟨hmem, _⟩; exact hsab.mpr hmem
      · rw [if_neg h1, if_neg h2]
        exact hsab

/-! Machinery for the idempotence analysis of a repeated content-commit. -/

theorem setLinked_eq_self (ids : List String) (n : Note) (h : n.linkedNoteIds = ids) :
    setLinked ids n = n := by
  cases n
  simp only [setLinked]
  simp only at h
  rw [← h]

theorem setNote_eq_self (j : String) (f : Note → Note) (ns : List Note)
    (h : ∀ n ∈ ns, n.id = j → f n = n) : setNote j f ns = ns := by
  unfold setNote
  induction ns with
  | nil => rfl
  | cons n t ih =>
    simp only [List.map_cons]
    rw [ih (fun m hm => h m (List.mem_cons_of_mem n hm))]
    by_cases hj : n.id = j
    · rw [if_pos hj, h n (List.mem_cons_self n t) hj]
    · rw [if_neg hj]

theorem newLinkedIds_map (c : String) (φ : Note → Note) (hid : ∀ n, (φ n).id = n.id)
    (ht : ∀ n, (φ n).title = n.title) (ns : List Note) :
    newLinkedIds c (ns.map φ) = newLinkedIds c ns := by
  unfold newLinkedIds
  rw [List.filter_map φ ns, List.map_map]
  rw [show Note.id ∘ φ = Note.id from funext hid]
  congr 1
  exact List.filter_congr (fun a _ => by simp [Function.comp, ht])

theorem unresolvedTitlesOf_map (c : String) (φ : Note → Note)
    (ht : ∀ n, (φ n).title = n.title) (ns : List Note) :
    unresolvedTitlesOf c (ns.map φ) = unresolvedTitlesOf c ns := by
  unfold unresolvedTitlesOf
  apply List.filter_congr
  intro t _
  have h1 : (ns.map φ).filter (fun n => n.title ∈ parseWikiLinks c)
      = (ns.filter (fun n => n.title ∈ parseWikiLinks c)).map φ := by
    rw [List.filter_map φ ns]
    congr 1
    exact List.filter_congr (fun a _ => by simp [Function.comp, ht])
  rw [h1, List.any_map]
  have h2 : ((fun n => decide (n.title = t)) ∘ φ) = (fun n => decide (n.title = t)) :=
    funext fun n => by simp [Function.comp, ht]
  rw [h2]

theorem hasUnresolvedRow_iff (s : Store) (nid t : String) :
    hasUnresolvedRow s nid t = true ↔
      ∃ l ∈ s.links, l.sourceNoteId = nid ∧ l.targetTitle = t ∧ l.resolved = false := by
  simp [hasUnresolvedRow, List.any_eq_true]

theorem addUnresolvedStep_links_mem (nid : String) (now : Nat) (s : Store) (t : String)
    (l : Link) (hl : l ∈ s.links) : l ∈ (addUnresolvedStep nid now s t).links := by
  unfold addUnresolvedStep
  split
  · exact hl
  · exact List.mem_append_left _ hl

theorem unresolved_fold_has (nid : String) (now : Nat) :
    ∀ (xs : List String) (s : Store), ∀ t ∈ xs,
      ∃ l ∈ (xs.foldl (addUnresolvedStep nid now) s).links,
        l.sourceNoteId = nid ∧ l.targetTitle = t ∧ l.resolved = false := by
  intro xs
  induction xs with
  | nil => intro s t ht; exact absurd ht (List.not_mem_nil t)
  | cons x tail ih =>
    intro s t ht
    rcases List.mem_cons.mp ht with rfl | ht2
    · have hstep : ∃ l ∈ (addUnresolvedStep nid now s t).links,
          l.sourceNoteId = nid ∧ l.targetTitle = t ∧ l.resolved = false := by
        unfold addUnresolvedStep
        by_cases hg : hasUnresolvedRow s nid t
        · rw [if_pos hg]
          exact (hasUnresolvedRow_iff s nid t).mp hg
        · rw [if_neg hg]
          exact ⟨⟨freshId s.nextId, nid, emptyS, t, now, false⟩,
            List.mem_append_right _ (List.mem_singleton_self _), rfl, rfl, rfl⟩
      obtain ⟨l, hl, hprops⟩ := hstep
      refine ⟨l, ?_, hprops⟩
      simp only [List.foldl_cons]
      exact foldl_preserve (fun s2 => l ∈ s2.links) (addUnresolvedStep nid now)
        (fun s2 y h2 => addUnresolvedStep_links_mem nid now s2 y l h2) tail _ hl
    · simp only [List.foldl_cons]
      exact ih (addUnresolvedStep nid now s x) t ht2

theorem unresolved_fold_id (nid : String) (now : Nat) :
    ∀ (xs : List String) (s : Store), (∀ t ∈ xs, hasUnresolvedRow s nid t = true) →
      xs.foldl (addUnresolvedStep nid now) s = s := by
  intro xs
  induction xs with
  | nil => intro s _; rfl
  | cons x tail ih =>
    intro s h
    have hx : addUnresolvedStep nid now s x = s := by
      unfold addUnresolvedStep
      rw [if_pos (h x (List.mem_cons_self x tail))]
    simp only [List.foldl_cons, hx]
    exact ih s (fun t ht => h t (List.mem_cons_of_mem x ht))

theorem unresolved_foldSW_id (nid : String) (now : Nat) :
    ∀ (xs : List String) (s : Store) (k : Nat),
      (∀ t ∈ xs, hasUnresolvedRow s nid t = true) →
      foldSW (addUnresolvedStep nid now) (unresolvedCost nid) (s, k) xs = (s, k) := by
  intro xs
  induction xs with
  | nil => intro s k _; rfl
  | cons x tail ih =>
    intro s k h
    have hx : addUnresolvedStep nid now s x = s := by
      unfold addUnresolvedStep
      rw [if_pos (h x (List.mem_cons_self x tail))]
    have hc : unresolvedCost nid s x = 0 := by
      unfold unresolvedCost
      rw [if_pos (h x (List.mem_cons_self x tail))]
    simp only [foldSW, List.foldl_cons] at ih ⊢
    rw [hx, hc]
    exact ih s k (fun t ht => h t (List.mem_cons_of_mem x ht))

theorem updateNoteLinks_has_rows (nid c : String) (now : Nat) (s : Store) (cur : Note)
    (hget : dbGetNote s nid = some cur) :
    ∀ t ∈ unresolvedTitlesOf c s.notes,
      ∃ l ∈ (updateNoteLinks nid c now s).links,
        l.sourceNoteId = nid ∧ l.targetTitle = t ∧ l.resolved = false := by
  intro t ht
  simp only [updateNoteLinks, hget]
  exact unresolved_fold_has nid now _ _ t ht

theorem updateNoteLinks_idem (nid c : String) (now now2 : Nat) (s : Store) :
    updateNoteLinks nid c now2 (updateNoteLinks nid c now s) = updateNoteLinks nid c now s
    ∧ updateNoteLinksWrites nid c now2 (updateNoteLinks nid c now s) =
        (if (dbGetNote s nid).isSome then 1 else 0)
    ∧ addedLinksOf nid c (updateNoteLinks nid c now s) = []
    ∧ removedLinksOf nid c (updateNoteLinks nid c now s) = [] := by
  rcases hget : dbGetNote s nid with _ | cur
  · have h0 : updateNoteLinks nid c now s = s := updateNoteLinks_of_absent nid c now s hget
    rw [h0]
    refine ⟨updateNoteLinks_of_absent nid c now2 s hget, ?_, ?_, ?_⟩
    · simp [updateNoteLinksWrites, hget]
    · simp [addedLinksOf, hget]
    · simp [removedLinksOf, hget]
  · have hcurid : cur.id = nid := findNote_id hget
    have hnotes := updateNoteLinks_notes nid c now s cur hget
    have hrows0 := updateNoteLinks_has_rows nid c now s cur hget
    obtain ⟨s1, hs1⟩ : ∃ s1, updateNoteLinks nid c now s = s1 := ⟨_, rfl⟩
    rw [hs1] at hnotes hrows0 ⊢
    set φ := updNoteF nid (newLinkedIds c s.notes)
      ((newLinkedIds c s.notes).filter (fun i => i ∉ cur.linkedNoteIds))
      (cur.linkedNoteIds.filter (fun i => i ∉ newLinkedIds c s.notes)) with hφ
    have hφid : ∀ n, (φ n).id = n.id := fun n => updNoteF_id nid _ _ _ n
    have hφtitle : ∀ n, (φ n).title = n.title := fun n => updNoteF_title nid _ _ _ n
    have hget1 : dbGetNote s1 nid = some (φ cur) := by
      unfold dbGetNote
      rw [hnotes, findNote_map φ hφid]
      rw [show findNote s.notes nid = some cur from hget]
      rfl
    have hlinked : (φ cur).linkedNoteIds = newLinkedIds c s.notes := by
      rw [hφ, updNoteF_linked, if_pos hcurid]
    have eNew : newLinkedIds c s1.notes = newLinkedIds c s.notes := by
      rw [hnotes]
      exact newLinkedIds_map c φ hφid hφtitle s.notes
    have eTit : unresolvedTitlesOf c s1.notes = unresolvedTitlesOf c s.notes := by
      rw [hnotes]
      exact unresolvedTitlesOf_map c φ hφtitle s.notes
    have eNil : (newLinkedIds c s.notes).filter
        (fun i => i ∉ newLinkedIds c s.notes) = [] :=
      List.filter_eq_nil_iff.mpr (fun a ha => by simp [ha])
    have eSet : setNote nid (setLinked (newLinkedIds c s.notes)) s1.notes = s1.notes := by
      apply setNote_eq_self
      intro n hn hid2
      rw [hnotes] at hn
      obtain ⟨m, hm, rfl⟩ := List.mem_map.mp hn
      have hmid : m.id = nid := by rw [← hφid m]; exact hid2
      apply setLinked_eq_self
      rw [hφ, updNoteF_linked, if_pos hmid]
    have eEta : ({ s1 with notes := s1.notes } : Store) = s1 := rfl
    have hrows : ∀ t ∈ unresolvedTitlesOf c s.notes,
        hasUnresolvedRow s1 nid t = true := by
      intro t ht
      exact (hasUnresolvedRow_iff s1 nid t).mpr (hrows0 t ht)
    refine ⟨?_, ?_, ?_, ?_⟩
    · simp only [updateNoteLinks, hget1]
      rw [eNew, eTit, hlinked, eNil]
      simp only [List.foldl_nil]
      rw [eSet, eEta]
      exact unresolved_fold_id nid now2 _ _ hrows
    · simp only [updateNoteLinksWrites, hget1]
      rw [eNew, eTit, hlinked, eNil]
      rw [show ∀ p : Store × Nat, foldSW (addBacklinkStep nid now2) backlinkTouchCost p [] = p
        from fun p => rfl]
      rw [show ∀ p : Store × Nat, foldSW (removeBacklinkStep nid) backlinkTouchCost p [] = p
        from fun p => rfl]
      rw [eSet, eEta]
      rw [unresolved_foldSW_id nid now2 _ s1 1 hrows]
      simp [hget]
    · simp only [addedLinksOf, hget1]
      rw [eNew, hlinked, eNil]
    · simp only [removedLinksOf, hget1]
      rw [eNew, hlinked, eNil]

/-! Cleanup properties of deleteNote. -/

theorem delete_cleanup (s : Store) (n0 : Note) (hmem : n0 ∈ s.notes) (hnd : NodupIds s)
    (hsym : Symm s) :
    (∀ n ∈ (deleteNote n0.id s).notes,
        n.id ≠ n0.id ∧ n0.id ∉ n.linkedNoteIds ∧ n0.id ∉ n.backlinkNoteIds)
    ∧ (∀ l ∈ (deleteNote n0.id s).links, l.sourceNoteId ≠ n0.id ∧ l.targetNoteId ≠ n0.id)
    ∧ (∀ l ∈ (deleteNote n0.id s).links, l ∈ s.links) := by
  have h : dbGetNote s n0.id = some n0 := findNote_of_mem_nodup hnd hmem
  refine ⟨?_, ?_, ?_⟩
  · intro n hn
    rw [deleteNote_notes n0.id s n0 h] at hn
    have hn2 := List.mem_filter.mp hn
    obtain ⟨m, hm, rfl⟩ := List.mem_map.mp hn2.1
    have hid : m.id ≠ n0.id := by simpa [delNoteF_id] using hn2.2
    refine ⟨by simpa [delNoteF_id] using hid, ?_, ?_⟩
    · rw [delNoteF_linked]
      by_cases h2 : m.id ∈ n0.backlinkNoteIds
      · rw [if_pos h2]
        simp [List.mem_filter]
      · rw [if_neg h2]
        intro hmem2
        exact h2 ((hsym m hm n0 hmem).mp hmem2)
    · rw [delNoteF_backlink]
      by_cases h2 : m.id ∈ n0.linkedNoteIds
      · rw [if_pos h2]
        simp [List.mem_filter]
      · rw [if_neg h2]
        intro hmem2
        exact h2 ((hsym n0 hmem m hm).mpr hmem2)
  · intro l hl
    rw [deleteNote_links n0.id s n0 h] at hl
    have h2 := (List.mem_filter.mp hl).2
    simp only [decide_eq_true_eq] at h2
    push_neg at h2
    exact h2
  · intro l hl
    rw [deleteNote_links n0.id s n0 h] at hl
    exact (List.mem_filter.mp hl).1

/-! Preservation of the unresolved-row dedup invariant. -/

theorem UD_addBacklinkStep (nid : String) (now : Nat) (s : Store) (x : String)
    (h : UnresolvedDedup s) : UnresolvedDedup (addBacklinkStep nid now s x) := by
  unfold UnresolvedDedup at h ⊢
  unfold addBacklinkStep
  rcases hg : dbGetNote s x with _ | m
  · exact h
  · simp only [addLink]
    rw [List.pairwise_append]
    refine ⟨h, List.pairwise_singleton _ _, ?_⟩
    intro a ha b hb
    rw [List.mem_singleton] at hb
    subst hb
    intro _ hfalse
    simp at hfalse

theorem UD_removeBacklinkStep (nid : String) (s : Store) (x : String)
    (h : UnresolvedDedup s) : UnresolvedDedup (removeBacklinkStep nid s x) := by
  unfold UnresolvedDedup at h ⊢
  unfold removeBacklinkStep
  rcases hg : dbGetNote s x with _ | m
  · exact h
  · exact List.Pairwise.sublist (List.filter_sublist _) h

theorem UD_addUnresolvedStep (nid : String) (now : Nat) (s : Store) (t : String)
    (h : UnresolvedDedup s) : UnresolvedDedup (addUnresolvedStep nid now s t) := by
  unfold addUnresolvedStep
  by_cases hg : hasUnresolvedRow s nid t
  · rw [if_pos hg]
    exact h
  · rw [if_neg hg]
    unfold UnresolvedDedup at h ⊢
    simp only [addLink]
    rw [List.pairwise_append]
    refine ⟨h, List.pairwise_singleton _ _, ?_⟩
    intro a ha b hb
    rw [List.mem_singleton] at hb
    subst hb
    intro hares _ hpair
    exact hg ((hasUnresolvedRow_iff s nid t).mpr ⟨a, ha, hpair.1, hpair.2, hares⟩)

theorem UD_updateNoteLinks (nid c : String) (now : Nat) (s : Store)
    (h : UnresolvedDedup s) : UnresolvedDedup (updateNoteLinks nid c now s) := by
  rcases hget : dbGetNote s nid with _ | cur
  · rw [updateNoteLinks_of_absent nid c now s hget]
    exact h
  · simp only [updateNoteLinks, hget]
    apply foldl_preserve UnresolvedDedup (addUnresolvedStep nid now)
      (fun s2 x h2 => UD_addUnresolvedStep nid now s2 x h2)
    apply foldl_preserve UnresolvedDedup (removeBacklinkStep nid)
      (fun s2 x h2 => UD_removeBacklinkStep nid s2 x h2)
    apply foldl_preserve UnresolvedDedup (addBacklinkStep nid now)
      (fun s2 x h2 => UD_addBacklinkStep nid now s2 x h2)
    exact h

theorem UD_deleteNote (i : String) (s : Store) (h : UnresolvedDedup s) :
    UnresolvedDedup (deleteNote i s) := by
  rcases hget : dbGetNote s i with _ | n0
  · rw [deleteNote_of_absent i s hget]
    exact h
  · unfold UnresolvedDedup
    rw [deleteNote_links i s n0 hget]
    exact List.Pairwise.sublist (List.filter_sublist _) h

theorem UD_createNote (d : NoteData) (now : Nat) (s : Store) (h : UnresolvedDedup s) :
    UnresolvedDedup (createNote d now s).1 := h

theorem UD_updateNote (i : String) (u : NoteUpdates) (now : Nat) (s : Store)
    (h : UnresolvedDedup s) : UnresolvedDedup (updateNote i u now s) := h

/-! Survival of placeholder rows across a content-commit. -/

theorem setNote_ids_ne (j : String) (f : Note → Note) (hf : ∀ n, (f n).id = n.id)
    (ns : List Note) (h : ∀ n ∈ ns, n.id ≠ emptyS) :
    ∀ n ∈ setNote j f ns, n.id ≠ emptyS := by
  intro n hn
  simp only [setNote] at hn
  obtain ⟨m, hm, rfl⟩ := List.mem_map.mp hn
  by_cases hj : m.id = j
  · simpa [hj, hf] using h m hm
  · simpa [hj] using h m hm

theorem unresolved_survives_commit (nid c : String) (now : Nat) (s : Store) (l : Link)
    (hids : ∀ n ∈ s.notes, n.id ≠ emptyS) (hl : l ∈ s.links)
    (hres : l.resolved = false) (htgt : l.targetNoteId = emptyS) :
    l ∈ (updateNoteLinks nid c now s).links := by
  rcases hget : dbGetNote s nid with _ | cur
  · rw [updateNoteLinks_of_absent nid c now s hget]
    exact hl
  · simp only [updateNoteLinks, hget]
    set P : Store → Prop := fun s2 => (∀ n ∈ s2.notes, n.id ≠ emptyS) ∧ l ∈ s2.links with hP
    have hadd : ∀ s2 x, P s2 → P (addBacklinkStep nid now s2 x) := by
      intro s2 x h2
      refine ⟨?_, ?_⟩
      · rw [addBacklinkStep_notes]
        exact setNote_ids_ne x (pushBacklink nid) (pushBacklink_id nid) s2.notes h2.1
      · unfold addBacklinkStep
        rcases hg : dbGetNote s2 x with _ | m
        · exact h2.2
        · exact List.mem_append_left _ h2.2
    have hrem : ∀ s2 x, P s2 → P (removeBacklinkStep nid s2 x) := by
      intro s2 x h2
      refine ⟨?_, ?_⟩
      · rw [removeBacklinkStep_notes]
        exact setNote_ids_ne x (pullBacklink nid) (pullBacklink_id nid) s2.notes h2.1
      · unfold removeBacklinkStep
        rcases hg : dbGetNote s2 x with _ | m
        · exact h2.2
        · apply List.mem_filter.mpr
          refine ⟨h2.2, ?_⟩
          have hx : m.id = x := findNote_id hg
          have hmne : m.id ≠ emptyS := h2.1 m (findNote_mem hg)
          simp only [decide_eq_true_eq]
          rintro ⟨_, h4⟩
          rw [htgt] at h4
          exact hmne (hx.trans h4.symm)
    have hunr : ∀ s2 x, P s2 → P (addUnresolvedStep nid now s2 x) := by
      intro s2 x h2
      refine ⟨?_, addUnresolvedStep_links_mem nid now s2 x l h2.2⟩
      rw [addUnresolvedStep_notes]
      exact h2.1
    have hP1 : P ({ s with notes := setNote nid (setLinked (newLinkedIds c s.notes)) s.notes }) := by
      refine ⟨?_, hl⟩
      exact setNote_ids_ne nid _ (setLinked_id _) s.notes hids
    exact (foldl_preserve P (addUnresolvedStep nid now) hunr _ _
      (foldl_preserve P (removeBacklinkStep nid) hrem _ _
        (foldl_preserve P (addBacklinkStep nid now) hadd _ _ hP1))).2

/-! Characterisation of the outgoing set a content-commit installs. -/

theorem commit_outgoing_iff (nid c : String) (now : Nat) (s : Store) (cur : Note)
    (hnd : NodupIds s) (hget : dbGetNote s nid = some cur) :
    ∀ t ∈ s.notes,
      (t.id ∈ outgoingOf (updateNoteLinks nid c now s) nid ↔
        t.title ∈ parseWikiLinks c) := by
  intro t ht
  have hnotes := updateNoteLinks_notes nid c now s cur hget
  unfold outgoingOf dbGetNote
  rw [hnotes, findNote_map _ (updNoteF_id nid _ _ _)]
  rw [show findNote s.notes nid = some cur from hget]
  simp only [Option.map_some']
  rw [updNoteF_linked, if_pos (findNote_id hget)]
  unfold newLinkedIds
  constructor
  · intro hmem
    obtain ⟨m, hm, hmid⟩ := List.mem_map.mp hmem
    have hm2 := List.mem_filter.mp hm
    have heq : m = t := nodupIds_inj hnd hm2.1 ht hmid
    rw [← heq]
    simpa using hm2.2
  · intro hmem
    apply List.mem_map_of_mem
    exact List.mem_filter.mpr ⟨ht, by simpa using hmem⟩

/-! Claim results. -/

/-- Claim C1, counterexample: with two notes titled Dup, committing a body
referencing Dup creates two resolved Link rows for the one reference, not
exactly one tie-break-selected edge. -/
theorem claim1_counterexample :
    ((updateNoteLinks idA bodyDup 0 exDup).links.filter
      (fun l => l.sourceNoteId = idA ∧ l.targetTitle = titleDup ∧ l.resolved = true)).length
      = 2 := by
  decide

/-- Claim C1, amended: a content-commit resolves a reference to every
existing note whose title matches, creating one outgoing edge per candidate
(no tie-break): a note's id lands in the source's outgoing set exactly when
its title occurs in the parsed reference titles. -/
theorem claim1_amended (nid c : String) (now : Nat) (s : Store) (cur : Note)
    (hnd : NodupIds s) (hget : dbGetNote s nid = some cur) :
    ∀ t ∈ s.notes,
      (t.id ∈ outgoingOf (updateNoteLinks nid c now s) nid ↔
        t.title ∈ parseWikiLinks c) :=
  commit_outgoing_iff nid c now s cur hnd hget

/-- Witness for the amended C1: both duplicate-titled notes end up linked. -/
theorem claim1_witness :
    idB1 ∈ outgoingOf (updateNoteLinks idA bodyDup 0 exDup) idA
    ∧ idB2 ∈ outgoingOf (updateNoteLinks idA bodyDup 0 exDup) idA :=
  ⟨(claim1_amended idA bodyDup 0 exDup (mkNote idA titleA) (by decide) (by decide)
      (mkNote idB1 titleDup) (by decide)).mpr (by decide),
   (claim1_amended idA bodyDup 0 exDup (mkNote idA titleA) (by decide) (by decide)
      (mkNote idB2 titleDup) (by decide)).mpr (by decide)⟩

/-- Claim C2, counterexample: with an unresolved Link (a, X) pending,
creating a note titled X leaves the links table byte-identical (the row stays
unresolved), instead of converting the row to a resolved edge. -/
theorem claim2_counterexample :
    ((createNote ⟨some titleX, none, none, none, none⟩ 5 exPend).1).links
      = [unresolvedRow idA titleX]
    ∧ (unresolvedRow idA titleX).resolved = false
    ∧ ((createNote ⟨some titleX, none, none, none, none⟩ 5 exPend).2).title = titleX := by
  decide

/-- Claim C2, amended: createNote only appends the new note row; it performs
no resolution pass, so every Link row (in particular every unresolved row) is
left exactly as it was. -/
theorem claim2_amended (data : NoteData) (now : Nat) (s : Store) :
    ((createNote data now s).1).links = s.links
    ∧ ((createNote data now s).1).notes = s.notes ++ [(createNote data now s).2] :=
  ⟨rfl, rfl⟩

/-- Claim C3, counterexample: re-committing the same body issues one store
write (the unconditional rewrite of the source's linkedNoteIds), not zero. -/
theorem claim3_counterexample :
    updateNoteLinksWrites idA bodyPlain 5 (updateNoteLinks idA bodyPlain 0 exOne) = 1
    ∧ updateNoteLinksWrites idA bodyPlain 5 (updateNoteLinks idA bodyPlain 0 exOne) ≠ 0 := by
  decide

/-- Claim C3, amended: a second content-commit with unchanged text leaves the
store byte-identical and produces an empty edit script (no added or removed
edges), but still issues exactly one write (the redundant linkedNoteIds
update) whenever the note exists, rather than zero writes. -/
theorem claim3_amended (nid c : String) (now now2 : Nat) (s : Store) :
    updateNoteLinks nid c now2 (updateNoteLinks nid c now s) = updateNoteLinks nid c now s
    ∧ updateNoteLinksWrites nid c now2 (updateNoteLinks nid c now s) =
        (if (dbGetNote s nid).isSome then 1 else 0)
    ∧ addedLinksOf nid c (updateNoteLinks nid c now s) = []
    ∧ removedLinksOf nid c (updateNoteLinks nid c now s) = [] :=
  updateNoteLinks_idem nid c now now2 s

/-- Claim C4, counterexample: an unresolved Link row whose title no longer
occurs in the committed text survives the commit untouched instead of being
deleted. -/
theorem claim4_counterexample :
    (updateNoteLinks idA bodyPlain 0 exPend).links = [unresolvedRow idA titleX]
    ∧ (unresolvedRow idA titleX).resolved = false
    ∧ titleX ∉ parseWikiLinks bodyPlain := by
  decide

/-- Claim C4, amended: a content-commit never deletes unresolved placeholder
rows; every unresolved row (they carry an empty targetNoteId) survives any
commit, provided no note row has the empty string as id. -/
theorem claim4_amended (nid c : String) (now : Nat) (s : Store) (l : Link)
    (hids : ∀ n ∈ s.notes, n.id ≠ emptyS) (hl : l ∈ s.links)
    (hres : l.resolved = false) (htgt : l.targetNoteId = emptyS) :
    l ∈ (updateNoteLinks nid c now s).links :=
  unresolved_survives_commit nid c now s l hids hl hres htgt

/-- Witness for the amended C4: the stale placeholder row is still present
after a commit that dropped its reference. -/
theorem claim4_witness :
    unresolvedRow idA titleX ∈ (updateNoteLinks idA bodyPlain 0 exPend).links :=
  claim4_amended idA bodyPlain 0 exPend (unresolvedRow idA titleX)
    (by decide) (by decide) (by decide) (by decide)

/-- Claim C5, counterexample: after committing a reference matched by two
notes of equal title, two Link rows share (sourceId, targetTitle), so the
claimed store-wide dedup invariant fails. -/
theorem claim5_counterexample :
    ¬ LinkDedup (updateNoteLinks idA bodyDup 0 exDup) := by
  decide

/-- Claim C5, amended: the dedup invariant the code maintains is restricted
to unresolved rows: if no two unresolved Link rows share (sourceId,
targetTitle), the same holds after each of the four operations (content
commit, create, update/rename, delete); resolved rows are not deduplicated. -/
theorem claim5_amended (s : Store) (nid c : String) (now : Nat) (d : NoteData)
    (now2 : Nat) (j : String) (u : NoteUpdates) (now3 : Nat) (i : String)
    (h : UnresolvedDedup s) :
    UnresolvedDedup (updateNoteLinks nid c now s)
    ∧ UnresolvedDedup (createNote d now2 s).1
    ∧ UnresolvedDedup (updateNote j u now3 s)
    ∧ UnresolvedDedup (deleteNote i s) :=
  ⟨UD_updateNoteLinks nid c now s h, UD_createNote d now2 s h,
    UD_updateNote j u now3 s h, UD_deleteNote i s h⟩

/-- Witness for the amended C5 on a concrete store with a pending
placeholder. -/
theorem claim5_witness :
    UnresolvedDedup (updateNoteLinks idA bodyDup 0 exPend)
    ∧ UnresolvedDedup (createNote ⟨some titleB, none, none, none, none⟩ 1 exPend).1
    ∧ UnresolvedDedup (updateNote idA ⟨some titleB, none⟩ 2 exPend)
    ∧ UnresolvedDedup (deleteNote idA exPend) :=
  claim5_amended exPend idA bodyDup 0 ⟨some titleB, none, none, none, none⟩ 1 idA
    ⟨some titleB, none⟩ 2 idA (by decide)

/-- Claim C6: adjacency symmetry (ids appear in a neighbor's outgoing set
exactly when the reverse id appears in the incoming set) is preserved by a
content-commit and by a delete, assuming it held before and that note ids are
unique. -/
theorem claim6_symmetry (s : Store) (nid c : String) (now : Nat) (i : String)
    (hnd : NodupIds s) (hsym : Symm s) :
    Symm (updateNoteLinks nid c now s) ∧ Symm (deleteNote i s) :=
  ⟨symm_preserved_update nid c now s hnd hsym, symm_preserved_delete i s hsym⟩

/-- Witness for C6 on the concrete symmetric store. -/
theorem claim6_witness :
    Symm (updateNoteLinks idA bodyDup 0 exPair) ∧ Symm (deleteNote idB exPair) :=
  claim6_symmetry exPair idA bodyDup 0 idB (by decide) (by decide)

/-- Claim C7: deleting an existing note removes its id from every surviving
note's outgoing and incoming sets, removes every Link row in which it is
source or target, removes the note itself, and creates no rows (in
particular no unresolved placeholders), assuming unique ids and the symmetry
invariant held before. -/
theorem claim7_delete_cleanup (s : Store) (n0 : Note) (hmem : n0 ∈ s.notes)
    (hnd : NodupIds s) (hsym : Symm s) :
    (∀ n ∈ (deleteNote n0.id s).notes,
        n.id ≠ n0.id ∧ n0.id ∉ n.linkedNoteIds ∧ n0.id ∉ n.backlinkNoteIds)
    ∧ (∀ l ∈ (deleteNote n0.id s).links, l.sourceNoteId ≠ n0.id ∧ l.targetNoteId ≠ n0.id)
    ∧ (∀ l ∈ (deleteNote n0.id s).links, l ∈ s.links) :=
  delete_cleanup s n0 hmem hnd hsym

/-- Witness for C7 on the concrete symmetric store. -/
theorem claim7_witness :
    (∀ n ∈ (deleteNote exPairA.id exPair).notes,
        n.id ≠ exPairA.id ∧ exPairA.id ∉ n.linkedNoteIds ∧ exPairA.id ∉ n.backlinkNoteIds)
    ∧ (∀ l ∈ (deleteNote exPairA.id exPair).links,
        l.sourceNoteId ≠ exPairA.id ∧ l.targetNoteId ≠ exPairA.id)
    ∧ (∀ l ∈ (deleteNote exPairA.id exPair).links, l ∈ exPair.links) :=
  claim7_delete_cleanup exPair exPairA (by decide) (by decide) (by decide)

/-- Claim C8, counterexample: renaming a note to a title for which an
unresolved Link row is pending updates the note's title but performs no
resolution pass: the links table is byte-identical and the row stays
unresolved. -/
theorem claim8_counterexample :
    (updateNote idN1 ⟨some titleNew, none⟩ 5 exRen).links = [unresolvedRow idA titleNew]
    ∧ (unresolvedRow idA titleNew).resolved = false
    ∧ (dbGetNote (updateNote idN1 ⟨some titleNew, none⟩ 5 exRen) idN1).map Note.title
        = some titleNew := by
  decide

/-- Claim C8, amended: updateNote (the rename path) only rewrites fields of
the named note row; it triggers no targeted resolution pass and never touches
the links table. -/
theorem claim8_amended (i : String) (u : NoteUpdates) (now : Nat) (s : Store) :
    (updateNote i u now s).links = s.links ∧ (updateNote i u now s).nextId = s.nextId :=
  ⟨rfl, rfl⟩

/-- Claim C9: the reference parser returns the trimmed raw captures with
duplicates removed in order of first occurrence, every capture stems from a
well-formed marker (nonempty, no closing bracket inside, properly
terminated), and text without closing brackets yields no references. -/
theorem claim9_parse_contract (s : String) :
    (parseWikiLinks s).Nodup
    ∧ (∀ t, t ∈ parseWikiLinks s ↔
        t ∈ (scanWikiLinks s.data).map (fun cs => String.mk (trimChars cs)))
    ∧ List.Sublist (parseWikiLinks s)
        ((scanWikiLinks s.data).map (fun cs => String.mk (trimChars cs)))
    ∧ (parseWikiLinks s).Pairwise (fun a b =>
        ((scanWikiLinks s.data).map (fun cs => String.mk (trimChars cs))).indexOf a <
        ((scanWikiLinks s.data).map (fun cs => String.mk (trimChars cs))).indexOf b)
    ∧ (∀ r ∈ scanWikiLinks s.data, r ≠ [] ∧ (∀ ch ∈ r, ch ≠ ']') ∧
        ∃ pre post, s.data = pre ++ '[' :: '[' :: (r ++ ']' :: ']' :: post))
    ∧ ((∀ ch ∈ s.data, ch ≠ ']') → parseWikiLinks s = []) := by
  refine ⟨dedupFirst_nodup _, fun t => mem_dedupFirst _ t, dedupFirst_sublist _,
    dedupFirst_pairwise _, scanWikiLinks_sound s.data, ?_⟩
  intro h
  unfold parseWikiLinks
  rw [scanWikiLinks_eq_nil_of_no_close s.data h]
  rfl

/-- Witness for C9: a text with a duplicated, whitespace-padded reference
parses to a single deduplicated title. -/
theorem claim9_witness :
    (parseWikiLinks bodyRefA).Nodup ∧ titleA ∈ parseWikiLinks bodyRefA :=
  ⟨(claim9_parse_contract bodyRefA).1,
    ((claim9_parse_contract bodyRefA).2.1 titleA).mpr (by decide)⟩

/-- Claim C10: a content-commit for a note id absent from the store returns
with the store unchanged and issues no writes, even when the body contains
references. -/
theorem claim10_missing_note (nid c : String) (now : Nat) (s : Store)
    (h : dbGetNote s nid = none) :
    updateNoteLinks nid c now s = s ∧ updateNoteLinksWrites nid c now s = 0 := by
  refine ⟨updateNoteLinks_of_absent nid c now s h, ?_⟩
  simp [updateNoteLinksWrites, h]

/-- Witness for C10: committing under an unknown id over a store with
matching titles changes nothing. -/
theorem claim10_witness :
    updateNoteLinks idZ bodyDup 0 exDup = exDup
    ∧ updateNoteLinksWrites idZ bodyDup 0 exDup = 0 :=
  claim10_missing_note idZ bodyDup 0 exDup (by decide)

end KnowledgeApp
